import Mathlib

/-!
Verification of the binding-dialer subsystem of `ngrokd-go`.

The Go sources are embedded shallowly:

* bytes are `Nat` values (real wire bytes are `< 256`);
* Go `uint64` arithmetic is `Nat` arithmetic with explicit `% 2 ^ 64`
  (or guarded shifts) exactly where Go truncates;
* Go `int64` values are `Int` with two's-complement conversion made
  explicit where the source converts;
* fallible operations return sum types, and a Go runtime fault
  (out-of-range slice) is a dedicated outcome constructor;
* the retry loop is a pure function of an environment that fixes, per
  attempt, the attempt outcome, the select-branch taken during the
  inter-attempt wait, and the sampled jitter value.
-/

/-! ## Wire codec (bindings protocol, `part_006` / `part_005`) -/

/-- `ConnRequest` is the binding protocol request (`Host string`, `Port int64`).
The hostname is its byte sequence. -/
structure ConnRequest where
  Host : List Nat
  Port : Int
deriving DecidableEq, Repr

/-- `ConnResponse` is the binding protocol response; all four fields are
strings, kept here as byte sequences. -/
structure ConnResponse where
  EndpointID : List Nat
  Proto : List Nat
  ErrorCode : List Nat
  ErrorMessage : List Nat
deriving DecidableEq, Repr

/-- Go `byte(v) | 0x80` on a `uint64` value: low 8 bits, high bit forced. -/
def contByte (v : Nat) : Nat := (v % 256) ||| 128

/-- `appendVarint` from the source: base-128 varint, continuation bit on all
but the final byte, least-significant group first (`v >>= 7` loop). -/
def appendVarint (buf : List Nat) (v : Nat) : List Nat :=
  if v < 128 then buf ++ [v]
  else appendVarint (buf ++ [contByte v]) (v / 128)
termination_by v
decreasing_by exact Nat.div_lt_self (by omega) (by omega)

/-- The byte list produced by `appendVarint` for `v` alone. -/
def varintBytes (v : Nat) : List Nat :=
  if v < 128 then [v]
  else contByte v :: varintBytes (v / 128)
termination_by v
decreasing_by exact Nat.div_lt_self (by omega) (by omega)

/-- Go `uint64` left shift: `x << s` is `0` once `s ≥ 64`, otherwise the
product truncated to 64 bits. -/
def shl64 (x s : Nat) : Nat :=
  if s < 64 then (x <<< s) % 2 ^ 64 else 0

/-- Accumulating loop of `consumeVarint`: `v |= uint64(b&0x7f) << (7*i)`,
stopping at the first byte below `0x80`; an exhausted buffer returns the
bytes consumed so far. -/
def consumeVarintGo : List Nat → Nat → Nat → Nat × Nat
  | [], i, v => (v, i)
  | b :: rest, i, v =>
    let v' := v ||| shl64 (b &&& 127) (7 * i)
    if b < 128 then (v', i + 1) else consumeVarintGo rest (i + 1) v'

/-- `consumeVarint` from the source: returns the decoded value and the number
of bytes consumed. -/
def consumeVarint (data : List Nat) : Nat × Nat :=
  consumeVarintGo data 0 0

/-- Two's-complement conversion Go `uint64(p)` of an `int64` value. -/
def uint64ofInt (p : Int) : Nat := (p % (2 : Int) ^ 64).toNat

/-- `(*ConnRequest).marshal` from the source: field 1 (`Host`) as tag `0x0a`,
varint length, raw bytes, omitted when empty; field 2 (`Port`) as tag `0x10`,
varint value, omitted when zero.  The Go version also returns an `error` that
is always `nil`. -/
def ConnRequest.marshal (r : ConnRequest) : List Nat :=
  let buf : List Nat := []
  let buf := if r.Host = [] then buf
             else appendVarint (buf ++ [10]) r.Host.length ++ r.Host
  let buf := if r.Port = 0 then buf
             else appendVarint (buf ++ [16]) (uint64ofInt r.Port)
  buf

/-- Outcome of running a decoder over a byte buffer.  `oob` marks the Go
runtime fault raised by `data[pos : pos+int(length)]` when the declared
length exceeds the bytes remaining (slice bounds out of range). -/
inductive ProtoResult (α : Type) where
  | ok (value : α)
  | errWire (wireType : Nat)
  | oob
  | ioErr
deriving DecidableEq, Repr

/-- Field assignment switch of `(*ConnResponse).unmarshal`: fields 1-4 are
`EndpointID`, `Proto`, `ErrorCode`, `ErrorMessage`; other field numbers are
skipped. -/
def setRespField (acc : ConnResponse) (fieldNum : Nat) (value : List Nat) :
    ConnResponse :=
  if fieldNum = 1 then { acc with EndpointID := value }
  else if fieldNum = 2 then { acc with Proto := value }
  else if fieldNum = 3 then { acc with ErrorCode := value }
  else if fieldNum = 4 then { acc with ErrorMessage := value }
  else acc

/-- Tag-walking loop of `(*ConnResponse).unmarshal`.  Wire type 0 consumes a
varint and discards it; wire type 2 consumes a varint length and then slices
that many bytes out of the buffer — the source does so without a bounds
check, so a declared length larger than the remaining bytes (or one whose
`int` conversion is negative, `2^63 ≤ length`) is the `oob` fault; any other
wire type is a decode error. -/
def connRespLoop : List Nat → ConnResponse → ProtoResult ConnResponse
  | [], acc => .ok acc
  | t :: rest, acc =>
    let wireType := t &&& 7
    if wireType = 0 then
      connRespLoop (rest.drop (consumeVarint rest).2) acc
    else if wireType = 2 then
      let cv := consumeVarint rest
      let after := rest.drop cv.2
      if 2 ^ 63 ≤ cv.1 then .oob
      else if cv.1 ≤ after.length then
        connRespLoop (after.drop cv.1) (setRespField acc (t >>> 3) (after.take cv.1))
      else .oob
    else .errWire wireType
termination_by data _ => data.length
decreasing_by
  all_goals simp only [List.length_drop, List.length_cons]
  all_goals omega

/-- `(*ConnResponse).unmarshal` from the source, starting from the zero
response. -/
def ConnResponse.unmarshal (data : List Nat) : ProtoResult ConnResponse :=
  connRespLoop data ⟨[], [], [], []⟩

/-- Little-endian bytes of a 16-bit value, as written by
`binary.Write(conn, binary.LittleEndian, uint16(...))`. -/
def le16Bytes (n : Nat) : List Nat := [n % 256, n / 256 % 256]

/-- `writeProtoMessage` from the source: computes the body with `marshal`,
then writes `uint16(len(buf))` — the length reduced modulo `2^16`, with no
size check — followed by the body.  The function only fails on transport
errors, never on an oversized body. -/
def writeProtoMessage (r : ConnRequest) : List Nat :=
  let buf := r.marshal
  le16Bytes (buf.length % 2 ^ 16) ++ buf

/-- `readProtoMessage` from the source, as a function of the bytes available
on the stream: read a 16-bit little-endian length (short read is an I/O
error), read exactly that many body bytes (`io.ReadFull`; short read is an
I/O error), then `unmarshal` the body.  Stream bytes are `< 256`. -/
def readProtoMessage (input : List Nat) : ProtoResult ConnResponse :=
  match input with
  | b0 :: b1 :: rest =>
    let len := b0 + 256 * b1
    if rest.length < len then .ioErr
    else ConnResponse.unmarshal (rest.take len)
  | _ => .ioErr

/-- Result of the binding-protocol upgrade, read side. -/
inductive UpgradeResult where
  | ok (resp : ConnResponse)
  | bindingErr (errorCode errorMessage : List Nat)
  | readErr
deriving DecidableEq, Repr

/-- Read half of `upgradeToBinding` from the source: decode the response
frame, then treat a non-empty `ErrorCode` or `ErrorMessage` as a binding
error even though the frame decoded successfully. -/
def upgradeToBinding (input : List Nat) : UpgradeResult :=
  match readProtoMessage input with
  | .ok resp =>
    if resp.ErrorCode ≠ [] ∨ resp.ErrorMessage ≠ [] then
      .bindingErr resp.ErrorCode resp.ErrorMessage
    else .ok resp
  | _ => .readErr

/-- Go `int64(v)` of a `uint64` value: two's complement reinterpretation. -/
def int64ofNat (v : Nat) : Int :=
  if v < 2 ^ 63 then (v : Int) else (v : Int) - 2 ^ 64

/-- Field assignment for the request schema documented in the source
(`Field 1: Host (string) - wire type 2`, `Field 2: Port (int64) - wire
type 0`). -/
def setReqField (acc : ConnRequest) (fieldNum : Nat) (value : List Nat) :
    ConnRequest :=
  if fieldNum = 1 then { acc with Host := value } else acc

/-- Tag walk over an encoded `ConnRequest`, with exactly the loop structure
of `(*ConnResponse).unmarshal` but the request schema: field 1 is the
length-delimited hostname, field 2 the varint port.  The source has no
request decoder (the peer decodes); this walker realises "walking the tags"
of the documented schema. -/
def connReqLoop : List Nat → ConnRequest → ProtoResult ConnRequest
  | [], acc => .ok acc
  | t :: rest, acc =>
    let wireType := t &&& 7
    if wireType = 0 then
      let cv := consumeVarint rest
      let acc := if t >>> 3 = 2 then { acc with Port := int64ofNat cv.1 } else acc
      connReqLoop (rest.drop cv.2) acc
    else if wireType = 2 then
      let cv := consumeVarint rest
      let after := rest.drop cv.2
      if 2 ^ 63 ≤ cv.1 then .oob
      else if cv.1 ≤ after.length then
        connReqLoop (after.drop cv.1) (setReqField acc (t >>> 3) (after.take cv.1))
      else .oob
    else .errWire wireType
termination_by data _ => data.length
decreasing_by
  all_goals simp only [List.length_drop, List.length_cons]
  all_goals omega

/-- Tag walk over an encoded `ConnRequest` starting from the zero request. -/
def ConnRequest.walkFields (data : List Nat) : ProtoResult ConnRequest :=
  connReqLoop data ⟨[], 0⟩

/-! ## Retry with exponential backoff (`part_010`) -/

/-- `RetryConfig` from the source: `MaxRetries int`, the two backoff bounds
as `time.Duration` (an `int64` count of nanoseconds), and the float
multiplier modelled as a rational. -/
structure RetryConfig where
  MaxRetries : Int
  InitialBackoff : Int
  MaxBackoff : Int
  BackoffMultiplier : ℚ
deriving DecidableEq, Repr

/-- Go conversion `time.Duration(f)` of a float: truncation toward zero. -/
def durationOfFloat (q : ℚ) : Int :=
  if q < 0 then -⌊-q⌋ else ⌊q⌋

/-- `calculateBackoff` from the source, with the sampled `rand.Float64()`
value `u ∈ [0,1)` passed in: `InitialBackoff × Multiplier^(attempt-1)`,
then `jitter := (u - 0.5) * 0.5 * backoff` added, then the cap at
`MaxBackoff` (applied after the jitter), truncated to a `time.Duration`.
Real arithmetic stands in for Go's `float64`. -/
def calculateBackoff (u : ℚ) (attempt : Nat) (cfg : RetryConfig) : Int :=
  let backoff : ℚ := (cfg.InitialBackoff : ℚ) * cfg.BackoffMultiplier ^ (attempt - 1)
  let jitter : ℚ := (u - 1/2) * (1/2) * backoff
  let withJitter := backoff + jitter
  let capped := if (cfg.MaxBackoff : ℚ) < withJitter then (cfg.MaxBackoff : ℚ)
                else withJitter
  durationOfFloat capped

/-- Errors visible to the retry loop. `errAttempt k` stands for whatever
non-nil error `dialOnce` returned on attempt `k`. -/
inductive GoErr where
  | ctxCanceled
  | closedErr
  | errAttempt (k : Nat)
deriving DecidableEq, Repr

/-- Which branch of the `select` fires during the wait before an attempt:
the backoff timer, the caller's context being done, or the dialer's close
channel. -/
inductive WaitSig where
  | timer
  | ctxDone
  | closedSig
deriving DecidableEq, Repr

/-- Environment of one `dialWithRetry` run: per attempt index, the outcome
of `dialOnce` (`none` is success), the `select` branch taken during the wait
preceding that attempt, whether `ctx.Err()` is non-nil when checked after
that attempt fails, and the `rand.Float64()` sample used for its backoff. -/
structure RetryEnv where
  attemptErr : Nat → Option GoErr
  waitSig : Nat → WaitSig
  ctxErrAfter : Nat → Bool
  jitter : Nat → ℚ

/-- Observable events of a retry run: a completed backoff wait before
attempt `k` of duration `d`, and an executed dial attempt `k`. -/
inductive RetryEv where
  | waited (k : Nat) (d : Int)
  | tried (k : Nat)
deriving DecidableEq, Repr

/-- Result of `dialWithRetry`: a connection established on attempt `k`, or
the error returned (`none` only in the degenerate `MaxRetries < 0` case
where Go returns a nil connection and a nil error). -/
inductive RetryResult where
  | conn (k : Nat)
  | failed (e : Option GoErr)
deriving DecidableEq, Repr

/-- The loop body of `dialWithRetry`.  `fuel` is the number of remaining
iterations of `for attempt := 0; attempt <= cfg.MaxRetries; attempt++`.
Before every attempt but the first, wait for the computed backoff unless the
context is done or the dialer closed; then attempt; on success return the
connection; on failure record the error, return `ctx.Err()` without retrying
when it is non-nil, else continue.  Exhausted fuel returns the last error. -/
def dialWithRetryAux (env : RetryEnv) (cfg : RetryConfig) :
    Nat → Nat → Option GoErr → RetryResult × List RetryEv
  | 0, _, last => (.failed last, [])
  | fuel + 1, attempt, last =>
    if attempt = 0 then
      match env.attemptErr attempt with
      | none => (.conn attempt, [.tried attempt])
      | some e =>
        if env.ctxErrAfter attempt then (.failed (some .ctxCanceled), [.tried attempt])
        else
          let r := dialWithRetryAux env cfg fuel (attempt + 1) (some e)
          (r.1, .tried attempt :: r.2)
    else
      match env.waitSig attempt with
      | .ctxDone => (.failed (some .ctxCanceled), [])
      | .closedSig => (.failed (some .closedErr), [])
      | .timer =>
        let d := calculateBackoff (env.jitter attempt) attempt cfg
        match env.attemptErr attempt with
        | none => (.conn attempt, [.waited attempt d, .tried attempt])
        | some e =>
          if env.ctxErrAfter attempt then
            (.failed (some .ctxCanceled), [.waited attempt d, .tried attempt])
          else
            let r := dialWithRetryAux env cfg fuel (attempt + 1) (some e)
            (r.1, .waited attempt d :: .tried attempt :: r.2)

/-- `dialWithRetry` from the source: at most `MaxRetries + 1` iterations,
starting at attempt 0 with no recorded error. -/
def dialWithRetry (env : RetryEnv) (cfg : RetryConfig) : RetryResult × List RetryEv :=
  dialWithRetryAux env cfg (cfg.MaxRetries + 1).toNat 0 none

/-- Whether a retry event is an executed dial attempt. -/
def RetryEv.isTried : RetryEv → Bool
  | .tried _ => true
  | .waited _ _ => false

/-- The retry configuration of the spec's backoff scenario: `MaxRetries=3`,
`InitialBackoff=100ms`, `MaxBackoff=5s`, `Multiplier=2.0`, in nanoseconds. -/
def specRetryConfig : RetryConfig :=
  ⟨3, 100000000, 5000000000, 2⟩

/-! ## Address parsing (`endpoint.go`) -/

/-- Outcome of `parseAddress`: hostname and port, or one of the error
returns of the source. -/
inductive ParseErr where
  | invalidURL
  | invalidPort
  | schemeRequiresPort (scheme : List Char)
deriving DecidableEq, Repr

/-- Split a character list at the first occurrence of `pat`, returning the
parts before and after it (`strings.Contains` + scheme split). -/
def splitAtSub : List Char → List Char → Option (List Char × List Char)
  | s, pat =>
    if pat.isPrefixOf s then some ([], s.drop pat.length)
    else match s with
      | [] => none
      | c :: rest =>
        match splitAtSub rest pat with
        | some (a, b) => some (c :: a, b)
        | none => none

/-- `strings.LastIndex(address, ":")`. -/
def lastColonIdx (s : List Char) : Option Nat :=
  let idxs := (List.range s.length).filter (fun i => s.getD i ' ' = ':')
  idxs.getLast?

/-- Leading-digit run of `fmt.Sscanf("%d")` after the optional sign. -/
def digitsVal : List Char → Option Nat
  | s =>
    let ds := s.takeWhile Char.isDigit
    if ds = [] then none
    else some (ds.foldl (fun acc c => acc * 10 + (c.toNat - 48)) 0)

/-- `fmt.Sscanf(portStr, "%d", &port)`: skip leading spaces, parse an
optional sign and at least one digit; trailing bytes are not an error. -/
def sscanfInt (s : List Char) : Option Int :=
  let s := s.dropWhile (fun c => c = ' ')
  match s with
  | '-' :: rest => (digitsVal rest).map (fun n => -(n : Int))
  | '+' :: rest => (digitsVal rest).map (fun n => (n : Int))
  | _ => (digitsVal s).map (fun n => (n : Int))

/-- Hostname / port split of a URL authority at the last colon
(`u.Hostname()` / `u.Port()`). -/
def hostPortSplit (auth : List Char) : List Char × Option (List Char) :=
  match lastColonIdx auth with
  | some i => (auth.take i, some (auth.drop (i + 1)))
  | none => (auth, none)

/-- `parseAddress` from `endpoint.go`.  A URL (address containing `://`,
modelled for the `scheme://host[:port][/path]` shapes the dialer accepts)
takes its port from the URL, defaulting by scheme: 80 for `http` and for
unknown schemes, while `tcp` and `tls` require an explicit port and their
absence is an error.  A non-URL address splits at the last colon with an
`fmt.Sscanf`-parsed port, and a bare hostname defaults to port 80. -/
def parseAddress (address : List Char) : Except ParseErr (List Char × Int) :=
  match splitAtSub address "://".toList with
  | some (scheme, rest) =>
    let auth := rest.takeWhile (fun c => c ≠ '/')
    let hp := hostPortSplit auth
    match hp.2 with
    | some (p :: ps) =>
      match sscanfInt (p :: ps) with
      | some n => .ok (hp.1, n)
      | none => .error .invalidPort
    | _ =>
      if scheme = "http".toList then .ok (hp.1, 80)
      else if scheme = "tcp".toList ∨ scheme = "tls".toList then
        .error (.schemeRequiresPort scheme)
      else .ok (hp.1, 80)
  | none =>
    match lastColonIdx address with
    | some i =>
      match sscanfInt (address.drop (i + 1)) with
      | some n => .ok (address.take i, n)
      | none => .error .invalidPort
    | none => .ok (address, 80)

/-! ## Endpoint discovery and cache (`endpoint.go`, `dialer.go`) -/

/-- Raw endpoint entry as returned by the ngrok API listing. -/
structure APIEndpoint where
  ID : List Char
  URL : List Char
  Proto : List Char
deriving DecidableEq, Repr

/-- `Endpoint` from `endpoint.go`. -/
structure Endpoint where
  ID : List Char
  Hostname : List Char
  Proto : List Char
  Port : Int
  URL : List Char
deriving DecidableEq, Repr

/-- `extractHostPort` from `endpoint.go`: hostname and port of an endpoint
URL, with `fmt.Sscanf` errors ignored (port left 0) and scheme defaults 443
for `https`/`tls`/unknown and 80 for `http`. -/
def extractHostPort (endpointURL : List Char) : List Char × Int :=
  match splitAtSub endpointURL "://".toList with
  | none => ([], 443)
  | some (scheme, rest) =>
    let auth := rest.takeWhile (fun c => c ≠ '/')
    let hp := hostPortSplit auth
    match hp.2 with
    | some (p :: ps) => (hp.1, (sscanfInt (p :: ps)).getD 0)
    | _ =>
      if scheme = "https".toList ∨ scheme = "tls".toList then (hp.1, 443)
      else if scheme = "http".toList then (hp.1, 80)
      else (hp.1, 443)

/-- Conversion of one raw listing entry into an `Endpoint` (the loop body of
`discoverEndpoints`). -/
def convertOne (ep : APIEndpoint) : Endpoint :=
  let hp := extractHostPort ep.URL
  ⟨ep.ID, hp.1, ep.Proto, hp.2, ep.URL⟩

/-- Deduplication loop of `discoverEndpoints`: entries whose URL was already
seen are skipped (first occurrence wins), the rest are converted in order. -/
def dedupeConvert : List APIEndpoint → List (List Char) → List Endpoint
  | [], _ => []
  | ep :: rest, seen =>
    if ep.URL ∈ seen then dedupeConvert rest seen
    else convertOne ep :: dedupeConvert rest (ep.URL :: seen)

/-- `discoverEndpoints` from `endpoint.go`, as a function of the raw API
listing: deduplicate by URL, first occurrence winning, and convert. -/
def discoverEndpoints (listing : List APIEndpoint) : List Endpoint :=
  dedupeConvert listing []

/-- The endpoint cache: the contents of the Go map
`endpoints map[string]Endpoint`, as an association list with unique keys. -/
abbrev EndpointCache := List (List Char × Endpoint)

/-- Go map assignment `m[k] = v`: replace the entry for `k` or add one. -/
def mapInsert : EndpointCache → List Char → Endpoint → EndpointCache
  | [], k, v => [(k, v)]
  | (k', v') :: rest, k, v =>
    if k' = k then (k, v) :: rest else (k', v') :: mapInsert rest k v

/-- Go map lookup `m[k]`. -/
def mapLookup : EndpointCache → List Char → Option Endpoint
  | [], _ => none
  | (k', v') :: rest, k => if k' = k then some v' else mapLookup rest k

/-- Cache construction in `DiscoverEndpoints`: a fresh map filled with
`d.endpoints[ep.Hostname] = ep` for each discovered endpoint in order. -/
def buildCache (eps : List Endpoint) : EndpointCache :=
  eps.foldl (fun m ep => mapInsert m ep.Hostname ep) []

/-- Effect of one `DiscoverEndpoints` call on the cache: a successful
listing replaces the cache wholesale with a fresh map over the deduplicated
listing; a failed listing leaves the cache untouched. -/
def DiscoverEndpointsCache (prev : EndpointCache)
    (listing : Option (List APIEndpoint)) : EndpointCache :=
  match listing with
  | none => prev
  | some l => buildCache (discoverEndpoints l)

/-! ## DialContext dispatch (`dialer.go`) -/

/-- The dialer state that `DialContext` consults: the closed flag, the
endpoint cache, and whether a fallback dialer is configured. -/
structure DialerState where
  closed : Bool
  cache : EndpointCache
  hasFallback : Bool
deriving DecidableEq, Repr

/-- Observable outcome of a `DialContext` call. -/
inductive DialOutcome where
  | errClosed
  | errParse (e : ParseErr)
  | delegated (network address : List Char)
  | notFound (hostname : List Char)
  | dialed (hostname : List Char) (port : Int)
deriving DecidableEq, Repr

/-- The cache `DialContext` re-checks after its on-miss discovery: on a hit
the discovery is skipped, otherwise the cache is whatever the one-shot
`DiscoverEndpoints` left (its error, if any, is only logged). -/
def cacheAfterMiss (st : DialerState) (listing : Option (List APIEndpoint))
    (hostname : List Char) : EndpointCache :=
  if (mapLookup st.cache hostname).isSome then st.cache
  else DiscoverEndpointsCache st.cache listing

/-- `DialContext` from `dialer.go`: reject when closed; parse the address;
on a cache miss run a one-shot discovery and re-check; a still-unknown
hostname goes to the fallback dialer verbatim when configured and is an
`EndpointNotFoundError` otherwise; a known hostname proceeds to the binding
dial. -/
def DialContext (st : DialerState) (listing : Option (List APIEndpoint))
    (network address : List Char) : DialOutcome :=
  if st.closed then .errClosed
  else
    match parseAddress address with
    | .error e => .errParse e
    | .ok (hostname, port) =>
      if (mapLookup (cacheAfterMiss st listing hostname) hostname).isSome then
        .dialed hostname port
      else if st.hasFallback then .delegated network address
      else .notFound hostname

/-- Sentinel errors from `errors.go`. -/
inductive ErrSentinel where
  | errEndpointNotFound
  | errDialFailed
  | errUpgradeFailed
  | errClosed
deriving DecidableEq, Repr

/-- `EndpointNotFoundError` from `errors.go`. -/
structure EndpointNotFoundError where
  Hostname : List Char
deriving DecidableEq, Repr

/-- `(*EndpointNotFoundError).Is`: matches exactly the
`ErrEndpointNotFound` sentinel. -/
def EndpointNotFoundError.Is (e : EndpointNotFoundError) (target : ErrSentinel) :
    Bool :=
  target == ErrSentinel.errEndpointNotFound

/-! ## File-backed certificate store (`store.go`) -/

/-- The three fixed files of a `FileStore` directory (`tls.key`, `tls.crt`,
`operator_id`): `none` is a file whose `os.Stat`/`os.ReadFile` fails,
`some bs` a readable file with contents `bs`. -/
structure FileState where
  tlsKey : Option (List Nat)
  tlsCrt : Option (List Nat)
  operatorId : Option (List Nat)
deriving DecidableEq, Repr

/-- The failure cases of `(*FileStore).Load`. -/
inductive LoadErr where
  | keyRead
  | certRead
deriving DecidableEq, Repr

/-- `(*FileStore).Exists`: both the key file and the certificate file
stat successfully; the operator-id file is not consulted. -/
def FileStore.Exists (fs : FileState) : Bool :=
  fs.tlsKey.isSome && fs.tlsCrt.isSome

/-- `(*FileStore).Load`: reading the key or certificate file is fallible;
the operator-id read error is discarded, leaving the empty string. -/
def FileStore.Load (fs : FileState) : Except LoadErr (List Nat × List Nat × List Nat) :=
  match fs.tlsKey with
  | none => .error .keyRead
  | some key =>
    match fs.tlsCrt with
    | none => .error .certRead
    | some cert => .ok (key, cert, fs.operatorId.getD [])

/-! ## Concrete fixtures used by witnesses and counterexamples -/

/-- A request whose encoded body exceeds 65535 bytes: 65536 hostname
bytes plus the tag and the three length bytes give a 65540-byte body. -/
def oversizedRequest : ConnRequest :=
  ⟨List.replicate 65536 97, 0⟩

/-- Retry environment in which every attempt fails with a transport error,
every inter-attempt select observes a done context, the post-attempt
`ctx.Err()` is nil, and jitter samples are 0. -/
def envCtxDuringWait : RetryEnv :=
  ⟨fun k => some (.errAttempt k), fun _ => .ctxDone, fun _ => false, fun _ => 0⟩

/-- Retry environment in which every attempt succeeds. -/
def envAllOk : RetryEnv :=
  ⟨fun _ => none, fun _ => .timer, fun _ => false, fun _ => 0⟩

/-- Dialer state with an empty cache and a configured fallback dialer. -/
def emptyStateWithFallback : DialerState := ⟨false, [], true⟩

/-- Dialer state with an empty cache and no fallback dialer. -/
def emptyStateNoFallback : DialerState := ⟨false, [], false⟩

/-- Two raw listing entries sharing one canonical URL. -/
def dupEntryA : APIEndpoint :=
  ⟨"ep_1".toList, "http://app.example".toList, "http".toList⟩

/-- Second raw listing entry with the same URL as `dupEntryA`. -/
def dupEntryB : APIEndpoint :=
  ⟨"ep_2".toList, "http://app.example".toList, "http".toList⟩



/-! ## Bitwise arithmetic helpers -/

theorem lor_mul_pow_eq_add (n : Nat) :
    ∀ a b : Nat, a < 2 ^ n → a ||| b * 2 ^ n = a + b * 2 ^ n := by
  induction n with
  | zero =>
    intro a b ha
    interval_cases a
    simp [Nat.zero_or]
  | succ n ih =>
    intro a b ha
    have hbit : Nat.bit a.bodd a.div2 = a := Nat.bit_decomp a
    have hdiv : a.div2 < 2 ^ n := by
      rw [Nat.div2_val]
      have : 2 ^ (n + 1) = 2 ^ n * 2 := by ring
      omega
    have hb2 : b * 2 ^ (n + 1) = Nat.bit false (b * 2 ^ n) := by
      rw [Nat.bit_val]
      simp [Nat.pow_succ]
      ring
    calc a ||| b * 2 ^ (n + 1)
        = Nat.bit a.bodd a.div2 ||| Nat.bit false (b * 2 ^ n) := by rw [hbit, hb2]
      _ = Nat.bit (a.bodd || false) (a.div2 ||| b * 2 ^ n) := Nat.lor_bit _ _ _ _
      _ = Nat.bit a.bodd (a.div2 + b * 2 ^ n) := by rw [Bool.or_false, ih _ _ hdiv]
      _ = a + b * 2 ^ (n + 1) := by
          rw [Nat.bit_val]
          have := Nat.bodd_add_div2 a
          have : 2 * (a.div2 + b * 2 ^ n) + a.bodd.toNat
              = (a.bodd.toNat + 2 * a.div2) + b * (2 ^ n * 2) := by ring
          rw [this, Nat.bodd_add_div2, Nat.pow_succ]

theorem and_seven_eq_mod (t : Nat) : t &&& 7 = t % 8 := by
  have := Nat.and_pow_two_sub_one_eq_mod t 3
  norm_num at this
  exact this

theorem and_mask127_eq_mod (t : Nat) : t &&& 127 = t % 128 := by
  have := Nat.and_pow_two_sub_one_eq_mod t 7
  norm_num at this
  exact this

theorem shiftRight_three_eq_div (t : Nat) : t >>> 3 = t / 8 := by
  have := Nat.shiftRight_eq_div_pow t 3
  norm_num at this
  exact this

theorem contByte_eq_add (v : Nat) : contByte v = v % 128 + 128 := by
  unfold contByte
  have hx : v % 256 < 256 := Nat.mod_lt _ (by omega)
  have hsplit : v % 256 = v % 128 + 128 * (v % 256 / 128) := by omega
  have hz : v % 256 / 128 = 0 ∨ v % 256 / 128 = 1 := by omega
  have hy : v % 128 < 128 := Nat.mod_lt _ (by omega)
  have hbase : ∀ y : Nat, y < 128 → y ||| 128 = y + 128 := by
    intro y hy128
    have := lor_mul_pow_eq_add 7 y 1 (by omega)
    simpa using this
  rcases hz with hz | hz
  · rw [hsplit, hz]
    simpa using hbase _ hy
  · rw [hsplit, hz]
    have h1 : v % 128 + 128 * 1 = v % 128 ||| 128 := by
      rw [hbase _ hy]
    rw [h1, Nat.lor_assoc]
    have h128 : (128 : Nat) ||| 128 = 128 := Nat.or_self 128
    rw [h128, hbase _ hy]

theorem appendVarint_eq_append (v : Nat) :
    ∀ buf : List Nat, appendVarint buf v = buf ++ varintBytes v := by
  induction v using Nat.strong_induction_on with
  | _ v ih =>
    intro buf
    rw [appendVarint, varintBytes]
    by_cases h : v < 128
    · simp [h]
    · rw [if_neg h, if_neg h, ih (v / 128) (Nat.div_lt_self (by omega) (by omega))]
      simp

theorem varintBytes_ne_nil (v : Nat) : varintBytes v ≠ [] := by
  rw [varintBytes]
  by_cases h : v < 128 <;> simp [h]

theorem consumeVarintGo_varint (v : Nat) :
    ∀ (i acc : Nat) (rest : List Nat), acc < 2 ^ (7 * i) →
      acc + v * 2 ^ (7 * i) < 2 ^ 64 →
      consumeVarintGo (varintBytes v ++ rest) i acc
        = (acc + v * 2 ^ (7 * i), i + (varintBytes v).length) := by
  induction v using Nat.strong_induction_on with
  | _ v ih =>
    intro i acc rest hacc hlt
    by_cases h : v < 128
    · rw [varintBytes, if_pos h]
      simp only [List.cons_append, List.nil_append, consumeVarintGo, List.length_cons,
        List.length_nil]
      have hmask : v &&& 127 = v := by
        rw [and_mask127_eq_mod]
        omega
      have hshl : shl64 v (7 * i) = v * 2 ^ (7 * i) := by
        unfold shl64
        by_cases h64 : 7 * i < 64
        · rw [if_pos h64, Nat.shiftLeft_eq, Nat.mod_eq_of_lt (by omega)]
        · rw [if_neg h64]
          have hge : 2 ^ 64 ≤ 2 ^ (7 * i) := Nat.pow_le_pow_right (by omega) (by omega)
          have hv0 : v * 2 ^ (7 * i) < 2 ^ 64 := by omega
          have : v = 0 := by
            rcases Nat.eq_zero_or_pos v with h0 | h0
            · exact h0
            · exfalso
              have : 2 ^ (7 * i) ≤ v * 2 ^ (7 * i) := Nat.le_mul_of_pos_left _ h0
              omega
          simp [this]
      rw [hmask, hshl, if_pos h, lor_mul_pow_eq_add _ _ _ hacc]
    · rw [varintBytes, if_neg h]
      simp only [List.cons_append, consumeVarintGo, List.length_cons]
      have hv0 : 0 < v := by omega
      have hcb : contByte v = v % 128 + 128 := contByte_eq_add v
      have hmask : contByte v &&& 127 = v % 128 := by
        rw [hcb, and_mask127_eq_mod]
        omega
      have hnotlt : ¬ contByte v < 128 := by omega
      have h64 : 7 * i < 64 := by
        by_contra h64
        have hge : 2 ^ 64 ≤ 2 ^ (7 * i) := Nat.pow_le_pow_right (by omega) (by omega)
        have : 2 ^ (7 * i) ≤ v * 2 ^ (7 * i) := Nat.le_mul_of_pos_left _ hv0
        omega
      have hmod : v % 128 * 2 ^ (7 * i) ≤ v * 2 ^ (7 * i) :=
        Nat.mul_le_mul_right _ (Nat.mod_le _ _)
      have hshl : shl64 (v % 128) (7 * i) = v % 128 * 2 ^ (7 * i) := by
        unfold shl64
        rw [if_pos h64, Nat.shiftLeft_eq, Nat.mod_eq_of_lt (by omega)]
      have hor : acc ||| v % 128 * 2 ^ (7 * i) = acc + v % 128 * 2 ^ (7 * i) :=
        lor_mul_pow_eq_add _ _ _ hacc
      have hpow : 2 ^ (7 * (i + 1)) = 2 ^ (7 * i) * 128 := by
        have h7 : 7 * (i + 1) = 7 * i + 7 := by ring
        rw [h7, Nat.pow_add]
      have hsum : acc + v % 128 * 2 ^ (7 * i) + v / 128 * 2 ^ (7 * (i + 1))
          = acc + v * 2 ^ (7 * i) := by
        rw [hpow]
        have hdm : v % 128 + 128 * (v / 128) = v := Nat.mod_add_div v 128
        calc acc + v % 128 * 2 ^ (7 * i) + v / 128 * (2 ^ (7 * i) * 128)
            = acc + (v % 128 + 128 * (v / 128)) * 2 ^ (7 * i) := by ring
          _ = acc + v * 2 ^ (7 * i) := by rw [hdm]
      have hacc' : acc + v % 128 * 2 ^ (7 * i) < 2 ^ (7 * (i + 1)) := by
        rw [hpow]
        have h127 : v % 128 < 128 := Nat.mod_lt _ (by omega)
        have : v % 128 * 2 ^ (7 * i) ≤ 127 * 2 ^ (7 * i) :=
          Nat.mul_le_mul_right _ (by omega)
        nlinarith [hacc]
      have hlt' : acc + v % 128 * 2 ^ (7 * i) + v / 128 * 2 ^ (7 * (i + 1)) < 2 ^ 64 := by
        rw [hsum]; exact hlt
      rw [hmask, hshl, if_neg hnotlt, hor]
      simp only [List.append_eq]
      rw [ih (v / 128) (Nat.div_lt_self hv0 (by omega)) (i + 1) _ rest hacc' hlt', hsum]
      ring_nf

theorem consumeVarint_varint (v : Nat) (rest : List Nat) (hv : v < 2 ^ 64) :
    consumeVarint (varintBytes v ++ rest) = (v, (varintBytes v).length) := by
  unfold consumeVarint
  have := consumeVarintGo_varint v 0 0 rest (by norm_num) (by simpa using hv)
  simpa using this

theorem uint64ofInt_lt (p : Int) : uint64ofInt p < 2 ^ 64 := by
  unfold uint64ofInt
  have h := Int.emod_lt_of_pos p (b := 2 ^ 64) (by positivity)
  have h0 : 0 ≤ p % 2 ^ 64 := Int.emod_nonneg p (by positivity)
  omega

theorem uint64ofInt_of_range (p : Int) (h0 : 0 ≤ p) (h1 : p < 2 ^ 63) :
    uint64ofInt p = p.toNat := by
  unfold uint64ofInt
  rw [Int.emod_eq_of_lt h0 (by omega)]

theorem int64ofNat_toNat (p : Int) (h0 : 0 ≤ p) (h1 : p < 2 ^ 63) :
    int64ofNat p.toNat = p := by
  unfold int64ofNat
  rw [if_pos (by omega)]
  omega

theorem connReqLoop_host_seg (H tail : List Nat) (acc : ConnRequest)
    (hH : H.length < 2 ^ 63) :
    connReqLoop (10 :: (varintBytes H.length ++ (H ++ tail))) acc
      = connReqLoop tail { acc with Host := H } := by
  rw [connReqLoop]
  have h7 : (10 : Nat) &&& 7 = 2 := by rw [and_seven_eq_mod]
  have h3 : (10 : Nat) >>> 3 = 1 := by rw [shiftRight_three_eq_div]
  simp only [h7, h3]
  norm_num
  rw [consumeVarint_varint _ _ (by omega)]
  simp only [List.drop_left]
  rw [if_neg (by omega), if_pos (by simp)]
  rw [List.take_left]
  have hassoc : varintBytes H.length ++ (H ++ tail)
      = (varintBytes H.length ++ H) ++ tail := by
    simp [List.append_assoc]
  have hlen : (varintBytes H.length).length + H.length
      = (varintBytes H.length ++ H).length := by simp
  rw [hassoc, hlen, List.drop_left]
  simp [setReqField]

theorem connReqLoop_port_seg (P : Int) (acc : ConnRequest)
    (h0 : 0 ≤ P) (h1 : P < 2 ^ 63) :
    connReqLoop (16 :: varintBytes (uint64ofInt P)) acc
      = .ok { acc with Port := P } := by
  rw [connReqLoop]
  have h7 : (16 : Nat) &&& 7 = 0 := by rw [and_seven_eq_mod]
  have h3 : (16 : Nat) >>> 3 = 2 := by rw [shiftRight_three_eq_div]
  simp only [h7, h3]
  norm_num
  have hv := consumeVarint_varint (uint64ofInt P) [] (uint64ofInt_lt P)
  rw [List.append_nil] at hv
  rw [hv]
  rw [List.drop_length]
  rw [connReqLoop]
  rw [uint64ofInt_of_range P h0 h1, int64ofNat_toNat P h0 h1]

theorem marshal_shape (H : List Nat) (P : Int) (hH : H ≠ []) (hP : P ≠ 0) :
    ConnRequest.marshal ⟨H, P⟩
      = 10 :: (varintBytes H.length ++ (H ++ (16 :: varintBytes (uint64ofInt P)))) := by
  unfold ConnRequest.marshal
  simp only [hH, hP, if_neg, ite_false]
  rw [appendVarint_eq_append, appendVarint_eq_append]
  simp [List.append_assoc]

theorem marshal_shape_host (H : List Nat) (hH : H ≠ []) :
    ConnRequest.marshal ⟨H, 0⟩
      = 10 :: (varintBytes H.length ++ (H ++ [])) := by
  unfold ConnRequest.marshal
  simp only [hH, ite_false, ite_true]
  rw [appendVarint_eq_append]
  simp [List.append_assoc]

theorem marshal_shape_port (P : Int) (hP : P ≠ 0) :
    ConnRequest.marshal ⟨[], P⟩ = 16 :: varintBytes (uint64ofInt P) := by
  unfold ConnRequest.marshal
  simp [hP]
  rw [appendVarint_eq_append]
  simp

/-- C3: for every `ConnRequest` whose port is a representable non-negative
`int64` and whose hostname length is a representable Go length, walking the
tags of the marshalled bytes recovers exactly the hostname (field 1,
length-delimited) and the port (field 2, varint); zero/empty fields are
omitted from the encoding entirely, and the empty encoding decodes back to
the zero request rather than an error. -/
theorem claim_C3_marshal_roundtrip :
    (∀ r : ConnRequest, r.Host.length < 2 ^ 63 → 0 ≤ r.Port → r.Port < 2 ^ 63 →
      ConnRequest.walkFields r.marshal = .ok r) ∧
    ConnRequest.marshal ⟨[], 0⟩ = [] ∧
    ConnRequest.walkFields (ConnRequest.marshal ⟨[], 0⟩) = .ok ⟨[], 0⟩ := by
  have hnil : ConnRequest.marshal ⟨[], 0⟩ = [] := by
    unfold ConnRequest.marshal
    simp
  refine ⟨?_, hnil, ?_⟩
  · rintro ⟨H, P⟩ h1 h2 h3
    by_cases hH : H = [] <;> by_cases hP : P = 0
    · subst hH hP
      rw [hnil]
      simp [ConnRequest.walkFields, connReqLoop]
    · subst hH
      rw [marshal_shape_port P hP]
      unfold ConnRequest.walkFields
      exact connReqLoop_port_seg P ⟨[], 0⟩ h2 h3
    · subst hP
      rw [marshal_shape_host H hH]
      unfold ConnRequest.walkFields
      rw [connReqLoop_host_seg H [] ⟨[], 0⟩ h1]
      simp [connReqLoop]
    · rw [marshal_shape H P hH hP]
      unfold ConnRequest.walkFields
      rw [connReqLoop_host_seg H _ ⟨[], 0⟩ h1]
      exact connReqLoop_port_seg P _ h2 h3
  · rw [hnil]
    simp [ConnRequest.walkFields, connReqLoop]

/-- Witness for C3 at the concrete request `{Host := "hi", Port := 80}`. -/
theorem claim_C3_marshal_roundtrip_witness :
    ConnRequest.walkFields (ConnRequest.marshal ⟨[104, 105], 80⟩)
      = .ok ⟨[104, 105], 80⟩ :=
  claim_C3_marshal_roundtrip.1 ⟨[104, 105], 80⟩ (by norm_num) (by norm_num) (by norm_num)

theorem marshal_length_65536 (H : List Nat) (hl : H.length = 65536) :
    (ConnRequest.marshal ⟨H, 0⟩).length = 65540 := by
  have hne : H ≠ [] := List.ne_nil_of_length_pos (by omega)
  rw [marshal_shape_host H hne, hl]
  have h1 : varintBytes 65536 = contByte 65536 :: varintBytes 512 := by
    rw [varintBytes]; norm_num
  have h2 : varintBytes 512 = contByte 512 :: varintBytes 4 := by
    rw [varintBytes]; norm_num
  have h3 : varintBytes 4 = [4] := by
    rw [varintBytes]; norm_num
  simp only [h1, h2, h3, List.append_nil, List.length_cons, List.length_append,
    List.length_nil]
  omega

theorem writeProtoMessage_65536 (H : List Nat) (hl : H.length = 65536) :
    writeProtoMessage ⟨H, 0⟩ = [4, 0] ++ ConnRequest.marshal ⟨H, 0⟩ := by
  simp only [writeProtoMessage, le16Bytes, marshal_length_65536 H hl]
  norm_num

/-- C1: at the oversized request (65536 hostname bytes, body 65540 bytes)
the encoder does not fail; it writes the 16-bit prefix `65540 % 2^16 = 4`,
a prefix reduced modulo `2^16` instead of the body length, followed by the
full 65540-byte body. -/
theorem claim_C1_length_prefix_truncates :
    (ConnRequest.marshal oversizedRequest).length = 65540 ∧
    65540 % 2 ^ 16 = 4 ∧
    writeProtoMessage oversizedRequest
      = [4, 0] ++ ConnRequest.marshal oversizedRequest := by
  have hl : (List.replicate 65536 97).length = 65536 := by
    rw [List.length_replicate]
  exact ⟨marshal_length_65536 _ hl, by norm_num, writeProtoMessage_65536 _ hl⟩

/-- C2: the two-byte body `[0x0a, 0x05]` declares a five-byte field-1 value
with no bytes remaining; the decoder's unchecked slice
`data[pos : pos+int(length)]` is an out-of-range fault, not an error
return. -/
theorem claim_C2_unmarshal_out_of_bounds :
    ConnResponse.unmarshal [10, 5] = .oob := by
  rw [ConnResponse.unmarshal, connRespLoop]
  norm_num [and_seven_eq_mod, consumeVarint, consumeVarintGo, shl64,
    and_mask127_eq_mod, Nat.shiftLeft_eq, Nat.zero_or]

/-- C9: whenever the response frame decodes successfully, the upgrade
succeeds exactly when both the error code and the error message are empty,
and refuses the connection with a binding error exactly when either is
non-empty. -/
theorem claim_C9_upgrade_refuses_error_response :
    ∀ (input : List Nat) (resp : ConnResponse), readProtoMessage input = .ok resp →
      (upgradeToBinding input = .ok resp ↔
        resp.ErrorCode = [] ∧ resp.ErrorMessage = []) ∧
      (upgradeToBinding input = .bindingErr resp.ErrorCode resp.ErrorMessage ↔
        (resp.ErrorCode ≠ [] ∨ resp.ErrorMessage ≠ [])) := by
  intro input resp h
  unfold upgradeToBinding
  rw [h]
  by_cases hc : resp.ErrorCode = [] <;> by_cases hm : resp.ErrorMessage = [] <;>
    simp [hc, hm]

/-- Witness for C9: a frame carrying error code `"E"` decodes successfully
and the upgrade refuses it. -/
theorem claim_C9_upgrade_refuses_error_response_witness :
    upgradeToBinding [3, 0, 26, 1, 69] = .bindingErr [69] [] := by
  have h : readProtoMessage [3, 0, 26, 1, 69] = .ok ⟨[], [], [69], []⟩ := by
    rw [readProtoMessage]
    norm_num
    rw [ConnResponse.unmarshal, connRespLoop]
    norm_num [and_seven_eq_mod, shiftRight_three_eq_div, consumeVarint,
      consumeVarintGo, shl64, and_mask127_eq_mod, Nat.shiftLeft_eq, Nat.zero_or,
      setRespField]
    rw [connRespLoop]
    norm_num
  exact ((claim_C9_upgrade_refuses_error_response [3, 0, 26, 1, 69]
    ⟨[], [], [69], []⟩ h).2).mpr (Or.inl (by simp))

/-! ## Retry-loop trace lemmas -/

theorem dialWithRetryAux_countP_tried (env : RetryEnv) (cfg : RetryConfig) :
    ∀ (fuel a : Nat) (last : Option GoErr),
      ((dialWithRetryAux env cfg fuel a last).2.countP RetryEv.isTried ≤ fuel) := by
  intro fuel
  induction fuel with
  | zero =>
    intro a last
    simp [dialWithRetryAux]
  | succ n ih =>
    intro a last
    rw [dialWithRetryAux]
    split
    · split
      · simp [List.countP_cons, RetryEv.isTried]
      · rename_i e heq
        split
        · simp [List.countP_cons, RetryEv.isTried]
        · have h := ih (a + 1) (some e)
          simp only [List.countP_cons, RetryEv.isTried, if_true, Bool.false_eq_true,
            if_false]
          omega
    · split
      · simp
      · simp
      · split
        · simp [List.countP_cons, RetryEv.isTried]
        · rename_i e heq
          split
          · simp [List.countP_cons, RetryEv.isTried]
          · have h := ih (a + 1) (some e)
            simp only [List.countP_cons, RetryEv.isTried, if_true, Bool.false_eq_true,
              if_false]
            omega

theorem dialWithRetryAux_waited_facts (env : RetryEnv) (cfg : RetryConfig) :
    ∀ (fuel a : Nat) (last : Option GoErr) (k : Nat) (d : Int),
      RetryEv.waited k d ∈ (dialWithRetryAux env cfg fuel a last).2 →
      1 ≤ k ∧ d = calculateBackoff (env.jitter k) k cfg := by
  intro fuel
  induction fuel with
  | zero =>
    intro a last k d h
    simp [dialWithRetryAux] at h
  | succ n ih =>
    intro a last k d h
    rw [dialWithRetryAux] at h
    revert h
    split
    · split
      · intro h
        simp at h
      · rename_i e heq
        split
        · intro h
          simp at h
        · intro h
          simp only [List.mem_cons] at h
          rcases h with h | h
          · exact absurd h (by simp)
          · exact ih (a + 1) (some e) k d h
    · rename_i ha
      split
      · intro h
        simp at h
      · intro h
        simp at h
      · split
        · intro h
          simp only [List.mem_cons, List.not_mem_nil] at h
          rcases h with h | h | h
          · obtain ⟨h1, h2⟩ := RetryEv.waited.inj h
            subst h1
            subst h2
            exact ⟨by omega, rfl⟩
          · exact absurd h (by simp)
          · exact absurd h (by simp)
        · rename_i e heq
          split
          · intro h
            simp only [List.mem_cons, List.not_mem_nil] at h
            rcases h with h | h | h
            · obtain ⟨h1, h2⟩ := RetryEv.waited.inj h
              subst h1
              subst h2
              exact ⟨by omega, rfl⟩
            · exact absurd h (by simp)
            · exact absurd h (by simp)
          · intro h
            simp only [List.mem_cons] at h
            rcases h with h | h | h
            · obtain ⟨h1, h2⟩ := RetryEv.waited.inj h
              subst h1
              subst h2
              exact ⟨by omega, rfl⟩
            · exact absurd h (by simp)
            · exact ih (a + 1) (some e) k d h

theorem dialWithRetryAux_head_tried (env : RetryEnv) (cfg : RetryConfig)
    (fuel : Nat) (last : Option GoErr) :
    (dialWithRetryAux env cfg (fuel + 1) 0 last).2.head? = some (.tried 0) := by
  rw [dialWithRetryAux]
  split
  · split
    · rfl
    · split
      · rfl
      · rfl
  · omega

theorem calculateBackoff_one_band (u : ℚ) (h0 : 0 ≤ u) (h1 : u < 1) :
    75000000 ≤ calculateBackoff u 1 specRetryConfig ∧
      calculateBackoff u 1 specRetryConfig ≤ 125000000 := by
  unfold calculateBackoff specRetryConfig durationOfFloat
  simp only [Nat.sub_self, pow_zero, mul_one]
  push_cast
  set w : ℚ := 100000000 + (u - 1 / 2) * (1 / 2) * 100000000 with hw
  rw [if_neg (show ¬ (5000000000 : ℚ) < w by rw [hw]; linarith)]
  rw [if_neg (show ¬ w < 0 by rw [hw]; linarith)]
  constructor
  · rw [Int.le_floor, hw]
    push_cast
    linarith
  · have hup : ⌊w⌋ < 125000001 := by
      rw [Int.floor_lt, hw]
      push_cast
      linarith
    omega

theorem calculateBackoff_two_band (u : ℚ) (h0 : 0 ≤ u) (h1 : u < 1) :
    150000000 ≤ calculateBackoff u 2 specRetryConfig ∧
      calculateBackoff u 2 specRetryConfig ≤ 250000000 := by
  unfold calculateBackoff specRetryConfig durationOfFloat
  norm_num
  push_cast
  set w : ℚ := 200000000 + (u - 1 / 2) * (1 / 2) * 200000000 with hw
  rw [if_neg (show ¬ (5000000000 : ℚ) < w by rw [hw]; linarith)]
  rw [if_neg (show ¬ w < 0 by rw [hw]; linarith)]
  constructor
  · rw [Int.le_floor, hw]
    push_cast
    linarith
  · have hup : ⌊w⌋ < 250000001 := by
      rw [Int.floor_lt, hw]
      push_cast
      linarith
    omega

/-- C4: with the spec retry configuration (`MaxRetries=3`,
`InitialBackoff=100ms`, `MaxBackoff=5s`, `Multiplier=2.0`) and any jitter
samples in `[0,1)`, the loop performs at most 4 attempts, the first event of
a run is attempt 0 with no wait before it, every completed wait before
retry `k` has `k ≥ 1` and duration `calculateBackoff` of that attempt, the
wait before the second attempt lies in `[75ms,125ms]`, and the wait before
the third attempt lies in `[150ms,250ms]` (nanoseconds). -/
theorem claim_C4_retry_attempts_and_backoff_bands :
    ∀ env : RetryEnv, (∀ k, 0 ≤ env.jitter k) → (∀ k, env.jitter k < 1) →
      ((dialWithRetry env specRetryConfig).2.countP RetryEv.isTried ≤ 4) ∧
      ((dialWithRetry env specRetryConfig).2.head? = some (.tried 0)) ∧
      (∀ k d, RetryEv.waited k d ∈ (dialWithRetry env specRetryConfig).2 →
        1 ≤ k ∧ d = calculateBackoff (env.jitter k) k specRetryConfig) ∧
      (∀ d, RetryEv.waited 1 d ∈ (dialWithRetry env specRetryConfig).2 →
        75000000 ≤ d ∧ d ≤ 125000000) ∧
      (∀ d, RetryEv.waited 2 d ∈ (dialWithRetry env specRetryConfig).2 →
        150000000 ≤ d ∧ d ≤ 250000000) := by
  intro env hj0 hj1
  have hfuel : (specRetryConfig.MaxRetries + 1).toNat = 3 + 1 := by
    norm_num [specRetryConfig]
    rfl
  have hw : ∀ k d, RetryEv.waited k d ∈ (dialWithRetry env specRetryConfig).2 →
      1 ≤ k ∧ d = calculateBackoff (env.jitter k) k specRetryConfig := by
    intro k d hd
    unfold dialWithRetry at hd
    exact dialWithRetryAux_waited_facts env specRetryConfig _ 0 none k d hd
  refine ⟨?_, ?_, hw, ?_, ?_⟩
  · unfold dialWithRetry
    rw [hfuel]
    exact dialWithRetryAux_countP_tried env specRetryConfig (3 + 1) 0 none
  · unfold dialWithRetry
    rw [hfuel]
    exact dialWithRetryAux_head_tried env specRetryConfig 3 none
  · intro d hd
    obtain ⟨h1, h2⟩ := hw 1 d hd
    rw [h2]
    exact calculateBackoff_one_band (env.jitter 1) (hj0 1) (hj1 1)
  · intro d hd
    obtain ⟨h1, h2⟩ := hw 2 d hd
    rw [h2]
    exact calculateBackoff_two_band (env.jitter 2) (hj0 2) (hj1 2)

/-- Witness for C4 at the all-successful environment: one attempt, no
waits. -/
theorem claim_C4_retry_attempts_and_backoff_bands_witness :
    ((dialWithRetry envAllOk specRetryConfig).2.countP RetryEv.isTried ≤ 4) ∧
      ((dialWithRetry envAllOk specRetryConfig).2.head? = some (.tried 0)) := by
  have h := claim_C4_retry_attempts_and_backoff_bands envAllOk
    (fun k => by norm_num [envAllOk]) (fun k => by norm_num [envAllOk])
  exact ⟨h.1, h.2.1⟩

theorem dialWithRetryAux_cancel_facts (env : RetryEnv) (cfg : RetryConfig) :
    ∀ (m fuel a : Nat) (last : Option GoErr),
      m < fuel →
      (∀ j, a ≤ j → j < a + m → env.attemptErr j ≠ none) →
      (∀ j, a ≤ j → j < a + m → env.ctxErrAfter j = false) →
      (∀ j, 1 ≤ j → a ≤ j → j < a + m → env.waitSig j = .timer) →
      ((1 ≤ a + m → env.waitSig (a + m) = .ctxDone →
        (dialWithRetryAux env cfg fuel a last).1 = .failed (some .ctxCanceled) ∧
        ∀ j, RetryEv.tried j ∈ (dialWithRetryAux env cfg fuel a last).2 →
          a ≤ j ∧ j < a + m) ∧
      (1 ≤ a + m → env.waitSig (a + m) = .closedSig →
        (dialWithRetryAux env cfg fuel a last).1 = .failed (some .closedErr) ∧
        ∀ j, RetryEv.tried j ∈ (dialWithRetryAux env cfg fuel a last).2 →
          a ≤ j ∧ j < a + m) ∧
      ((env.waitSig (a + m) = .timer ∨ a + m = 0) →
        env.attemptErr (a + m) ≠ none →
        env.ctxErrAfter (a + m) = true →
        (dialWithRetryAux env cfg fuel a last).1 = .failed (some .ctxCanceled) ∧
        ∀ j, RetryEv.tried j ∈ (dialWithRetryAux env cfg fuel a last).2 →
          a ≤ j ∧ j ≤ a + m)) := by
  intro m
  induction m with
  | zero =>
    intro fuel a last hfuel hfail hctx hwait
    obtain ⟨n, rfl⟩ : ∃ n, fuel = n + 1 := ⟨fuel - 1, by omega⟩
    refine ⟨?_, ?_, ?_⟩
    · intro h1a hsig
      rw [Nat.add_zero] at h1a hsig
      have ha : ¬ a = 0 := by omega
      rw [dialWithRetryAux]
      rw [if_neg ha, hsig]
      exact ⟨rfl, by intro j hj; simp at hj⟩
    · intro h1a hsig
      rw [Nat.add_zero] at h1a hsig
      have ha : ¬ a = 0 := by omega
      rw [dialWithRetryAux]
      rw [if_neg ha, hsig]
      exact ⟨rfl, by intro j hj; simp at hj⟩
    · intro hdisj henv2 hctx2
      rw [Nat.add_zero] at hdisj henv2 hctx2
      cases henv : env.attemptErr a with
      | none => exact absurd henv henv2
      | some e =>
        by_cases ha : a = 0
        · subst ha
          rw [dialWithRetryAux]
          rw [if_pos rfl, henv]
          simp only []
          rw [if_pos hctx2]
          refine ⟨rfl, ?_⟩
          intro j hj
          simp only [List.mem_singleton] at hj
          obtain h1 := RetryEv.tried.inj hj
          omega
        · have hsig : env.waitSig a = .timer := by
            rcases hdisj with h | h
            · exact h
            · omega
          rw [dialWithRetryAux]
          rw [if_neg ha, hsig]
          simp only []
          rw [henv]
          simp only []
          rw [if_pos hctx2]
          refine ⟨rfl, ?_⟩
          intro j hj
          simp only [List.mem_cons, List.not_mem_nil] at hj
          rcases hj with hj | hj | hj
          · exact absurd hj (by simp)
          · obtain h1 := RetryEv.tried.inj hj
            omega
          · exact absurd hj (by simp)
  | succ m ihm =>
    intro fuel a last hfuel hfail hctx hwait
    obtain ⟨n, rfl⟩ : ∃ n, fuel = n + 1 := ⟨fuel - 1, by omega⟩
    cases henv : env.attemptErr a with
    | none => exact absurd henv (hfail a (by omega) (by omega))
    | some e =>
      have hctxa : env.ctxErrAfter a = false := hctx a (by omega) (by omega)
      have hrec := ihm n (a + 1) (some e) (by omega)
        (fun j hj1 hj2 => hfail j (by omega) (by omega))
        (fun j hj1 hj2 => hctx j (by omega) (by omega))
        (fun j hj0 hj1 hj2 => hwait j hj0 (by omega) (by omega))
      have hidx : a + 1 + m = a + (m + 1) := by omega
      rw [hidx] at hrec
      by_cases ha : a = 0
      · subst ha
        have hstep : dialWithRetryAux env cfg (n + 1) 0 last
            = ((dialWithRetryAux env cfg n 1 (some e)).1,
               .tried 0 :: (dialWithRetryAux env cfg n 1 (some e)).2) := by
          rw [dialWithRetryAux]
          rw [if_pos rfl, henv]
          simp only []
          rw [if_neg (by rw [hctxa]; simp)]
        rw [hstep]
        refine ⟨?_, ?_, ?_⟩
        · intro h1a hsig
          obtain ⟨hres, hmem⟩ := hrec.1 (by omega) hsig
          refine ⟨hres, ?_⟩
          intro j hj
          simp only [List.mem_cons] at hj
          rcases hj with hj | hj
          · obtain h1 := RetryEv.tried.inj hj
            omega
          · have := hmem j hj
            omega
        · intro h1a hsig
          obtain ⟨hres, hmem⟩ := hrec.2.1 (by omega) hsig
          refine ⟨hres, ?_⟩
          intro j hj
          simp only [List.mem_cons] at hj
          rcases hj with hj | hj
          · obtain h1 := RetryEv.tried.inj hj
            omega
          · have := hmem j hj
            omega
        · intro hdisj henv2 hctx2
          obtain ⟨hres, hmem⟩ := hrec.2.2 (by rcases hdisj with h | h; exact Or.inl h; omega)
            henv2 hctx2
          refine ⟨hres, ?_⟩
          intro j hj
          simp only [List.mem_cons] at hj
          rcases hj with hj | hj
          · obtain h1 := RetryEv.tried.inj hj
            omega
          · have := hmem j hj
            omega
      · have hsiga : env.waitSig a = .timer := hwait a (by omega) (by omega) (by omega)
        have hstep : dialWithRetryAux env cfg (n + 1) a last
            = ((dialWithRetryAux env cfg n (a + 1) (some e)).1,
               .waited a (calculateBackoff (env.jitter a) a cfg)
                 :: .tried a :: (dialWithRetryAux env cfg n (a + 1) (some e)).2) := by
          rw [dialWithRetryAux]
          rw [if_neg ha, hsiga]
          simp only []
          rw [henv]
          simp only []
          rw [if_neg (by rw [hctxa]; simp)]
        rw [hstep]
        refine ⟨?_, ?_, ?_⟩
        · intro h1a hsig
          obtain ⟨hres, hmem⟩ := hrec.1 (by omega) hsig
          refine ⟨hres, ?_⟩
          intro j hj
          simp only [List.mem_cons] at hj
          rcases hj with hj | hj | hj
          · exact absurd hj (by simp)
          · obtain h1 := RetryEv.tried.inj hj
            omega
          · have := hmem j hj
            omega
        · intro h1a hsig
          obtain ⟨hres, hmem⟩ := hrec.2.1 (by omega) hsig
          refine ⟨hres, ?_⟩
          intro j hj
          simp only [List.mem_cons] at hj
          rcases hj with hj | hj | hj
          · exact absurd hj (by simp)
          · obtain h1 := RetryEv.tried.inj hj
            omega
          · have := hmem j hj
            omega
        · intro hdisj henv2 hctx2
          obtain ⟨hres, hmem⟩ := hrec.2.2
            (by rcases hdisj with h | h; exact Or.inl h; omega) henv2 hctx2
          refine ⟨hres, ?_⟩
          intro j hj
          simp only [List.mem_cons] at hj
          rcases hj with hj | hj | hj
          · exact absurd hj (by simp)
          · obtain h1 := RetryEv.tried.inj hj
            omega
          · have := hmem j hj
            omega

/-- C5: whenever the retry loop reaches the wait before attempt `K` (all
earlier attempts failed with a nil `ctx.Err()` and earlier waits timed out),
a context-done signal during that wait aborts the dial with the context's
cancellation error and no attempt `K` or later runs; a close signal aborts
with the closed-dialer error likewise; and a failed attempt `K` followed by
a non-nil `ctx.Err()` returns the cancellation error without any further
attempt. -/
theorem claim_C5_cancellation_aborts_retry :
    ∀ (env : RetryEnv) (cfg : RetryConfig) (K : Nat),
      K < (cfg.MaxRetries + 1).toNat →
      (∀ j, j < K → env.attemptErr j ≠ none) →
      (∀ j, j < K → env.ctxErrAfter j = false) →
      (∀ j, 1 ≤ j → j < K → env.waitSig j = .timer) →
      ((1 ≤ K → env.waitSig K = .ctxDone →
        (dialWithRetry env cfg).1 = .failed (some .ctxCanceled) ∧
        ∀ j, RetryEv.tried j ∈ (dialWithRetry env cfg).2 → j < K) ∧
      (1 ≤ K → env.waitSig K = .closedSig →
        (dialWithRetry env cfg).1 = .failed (some .closedErr) ∧
        ∀ j, RetryEv.tried j ∈ (dialWithRetry env cfg).2 → j < K) ∧
      ((env.waitSig K = .timer ∨ K = 0) → env.attemptErr K ≠ none →
        env.ctxErrAfter K = true →
        (dialWithRetry env cfg).1 = .failed (some .ctxCanceled) ∧
        ∀ j, RetryEv.tried j ∈ (dialWithRetry env cfg).2 → j ≤ K)) := by
  intro env cfg K hK hfail hctx hwait
  have h := dialWithRetryAux_cancel_facts env cfg K ((cfg.MaxRetries + 1).toNat) 0 none
    hK (fun j h1 h2 => hfail j (by omega)) (fun j h1 h2 => hctx j (by omega))
    (fun j h0 h1 h2 => hwait j h0 (by omega))
  simp only [Nat.zero_add] at h
  unfold dialWithRetry
  refine ⟨?_, ?_, ?_⟩
  · intro a b
    exact ⟨(h.1 a b).1, fun j hj => ((h.1 a b).2 j hj).2⟩
  · intro a b
    exact ⟨(h.2.1 a b).1, fun j hj => ((h.2.1 a b).2 j hj).2⟩
  · intro a b c
    exact ⟨(h.2.2 a b c).1, fun j hj => ((h.2.2 a b c).2 j hj).2⟩

/-- Witness for C5: with every attempt failing and the context canceled
during the first inter-attempt wait, the dial returns the cancellation
error. -/
theorem claim_C5_cancellation_aborts_retry_witness :
    (dialWithRetry envCtxDuringWait specRetryConfig).1
      = .failed (some .ctxCanceled) :=
  ((claim_C5_cancellation_aborts_retry envCtxDuringWait specRetryConfig 1
    (by norm_num [specRetryConfig])
    (fun j hj => by simp [envCtxDuringWait])
    (fun j hj => by simp [envCtxDuringWait])
    (fun j h1 h2 => by omega)).1 (by omega) rfl).1

/-- C6: for a `DialContext` call on an open dialer whose parsed hostname is
still absent from the cache after the on-miss discovery, a configured
fallback dialer receives the entire call with the network and address
arguments unmodified, and without one the call fails with an
`EndpointNotFoundError` carrying that hostname, which matches
`ErrEndpointNotFound`. -/
theorem claim_C6_fallback_dispatch :
    ∀ (st : DialerState) (listing : Option (List APIEndpoint))
      (network address hostname : List Char) (port : Int),
      st.closed = false →
      parseAddress address = .ok (hostname, port) →
      mapLookup (cacheAfterMiss st listing hostname) hostname = none →
      (st.hasFallback = true →
        DialContext st listing network address = .delegated network address) ∧
      (st.hasFallback = false →
        DialContext st listing network address = .notFound hostname ∧
        EndpointNotFoundError.Is ⟨hostname⟩ ErrSentinel.errEndpointNotFound = true) := by
  intro st listing network address hostname port hclosed hparse hmiss
  unfold DialContext
  rw [hclosed]
  simp only [Bool.false_eq_true, if_false]
  rw [hparse]
  simp only []
  rw [hmiss]
  simp only [Option.isSome_none, Bool.false_eq_true, if_false]
  constructor
  · intro hf
    rw [hf]
    simp
  · intro hf
    rw [hf]
    simp [EndpointNotFoundError.Is]

/-- Witness for C6: an empty-cache dialer with a fallback delegates the
spec's example address unchanged. -/
theorem claim_C6_fallback_dispatch_witness :
    DialContext emptyStateWithFallback none "tcp".toList "unknown.example.com:443".toList
      = .delegated "tcp".toList "unknown.example.com:443".toList :=
  (claim_C6_fallback_dispatch emptyStateWithFallback none "tcp".toList
    "unknown.example.com:443".toList "unknown.example.com".toList 443
    rfl (by rfl) (by rfl)).1 rfl

/-! ## Cache and deduplication lemmas -/

theorem mapInsert_mem :
    ∀ (m : EndpointCache) (k' k : List Char) (v' v : Endpoint),
      (k, v) ∈ mapInsert m k' v' → (k, v) ∈ m ∨ (k = k' ∧ v = v') := by
  intro m
  induction m with
  | nil =>
    intro k' k v' v h
    simp only [mapInsert, List.mem_singleton, Prod.mk.injEq] at h
    exact Or.inr h
  | cons p rest ih =>
    obtain ⟨a, b⟩ := p
    intro k' k v' v h
    rw [mapInsert] at h
    by_cases hk : a = k'
    · rw [if_pos hk] at h
      simp only [List.mem_cons, Prod.mk.injEq] at h
      rcases h with h | h
      · exact Or.inr h
      · exact Or.inl (List.mem_cons_of_mem _ h)
    · rw [if_neg hk] at h
      simp only [List.mem_cons] at h
      rcases h with h | h
      · exact Or.inl (by rw [h]; exact List.mem_cons_self _ _)
      · rcases ih k' k v' v h with h2 | h2
        · exact Or.inl (List.mem_cons_of_mem _ h2)
        · exact Or.inr h2

theorem mapLookup_mem :
    ∀ (m : EndpointCache) (k : List Char) (v : Endpoint),
      mapLookup m k = some v → (k, v) ∈ m := by
  intro m
  induction m with
  | nil =>
    intro k v h
    simp [mapLookup] at h
  | cons p rest ih =>
    obtain ⟨a, b⟩ := p
    intro k v h
    rw [mapLookup] at h
    by_cases hk : a = k
    · rw [if_pos hk] at h
      obtain h2 := Option.some.inj h
      subst hk
      subst h2
      exact List.mem_cons_self _ _
    · rw [if_neg hk] at h
      exact List.mem_cons_of_mem _ (ih k v h)

theorem buildCache_foldl_mem :
    ∀ (l : List Endpoint) (m : EndpointCache) (k : List Char) (v : Endpoint),
      (k, v) ∈ l.foldl (fun m ep => mapInsert m ep.Hostname ep) m →
      (k, v) ∈ m ∨ (v ∈ l ∧ k = v.Hostname) := by
  intro l
  induction l with
  | nil =>
    intro m k v h
    exact Or.inl h
  | cons ep rest ih =>
    intro m k v h
    rw [List.foldl_cons] at h
    rcases ih _ k v h with h2 | h2
    · rcases mapInsert_mem m ep.Hostname k ep v h2 with h3 | h3
      · exact Or.inl h3
      · exact Or.inr ⟨by rw [h3.2]; exact List.mem_cons_self _ _, by rw [h3.1, h3.2]⟩
    · exact Or.inr ⟨List.mem_cons_of_mem _ h2.1, h2.2⟩

theorem buildCache_mem (l : List Endpoint) (k : List Char) (v : Endpoint) :
    (k, v) ∈ buildCache l → v ∈ l ∧ k = v.Hostname := by
  intro h
  rcases buildCache_foldl_mem l [] k v h with h2 | h2
  · simp at h2
  · exact h2

theorem dedupeConvert_urls :
    ∀ (l : List APIEndpoint) (seen : List (List Char)),
      (((dedupeConvert l seen).map Endpoint.URL).Nodup ∧
        ∀ e ∈ dedupeConvert l seen, e.URL ∉ seen) := by
  intro l
  induction l with
  | nil =>
    intro seen
    simp [dedupeConvert]
  | cons ep rest ih =>
    intro seen
    rw [dedupeConvert]
    by_cases hin : ep.URL ∈ seen
    · rw [if_pos hin]
      exact ih seen
    · rw [if_neg hin]
      obtain ⟨ihn, ihs⟩ := ih (ep.URL :: seen)
      constructor
      · simp only [List.map_cons, List.nodup_cons]
        refine ⟨?_, ihn⟩
        intro hmem
        obtain ⟨e, he, heq⟩ := List.mem_map.mp hmem
        have := ihs e he
        rw [convertOne] at heq
        simp only at heq
        exact this (by rw [heq]; exact List.mem_cons_self _ _)
      · intro e he
        simp only [List.mem_cons] at he
        rcases he with he | he
        · rw [he, convertOne]
          simpa using hin
        · have := ihs e he
          intro hcon
          exact this (List.mem_cons_of_mem _ hcon)

theorem dedupeConvert_filter :
    ∀ (l : List APIEndpoint) (seen : List (List Char)) (u : List Char),
      ((u ∈ seen → (dedupeConvert l seen).filter (fun e => e.URL == u) = []) ∧
       (u ∉ seen → (dedupeConvert l seen).filter (fun e => e.URL == u)
          = match l.find? (fun x => x.URL == u) with
            | some a => [convertOne a]
            | none => [])) := by
  intro l
  induction l with
  | nil =>
    intro seen u
    constructor
    · intro _
      rfl
    · intro _
      rfl
  | cons ep rest ih =>
    intro seen u
    constructor
    · intro hu
      rw [dedupeConvert]
      by_cases hin : ep.URL ∈ seen
      · rw [if_pos hin]
        exact (ih seen u).1 hu
      · rw [if_neg hin]
        have hne : ep.URL ≠ u := by
          intro hcon
          exact hin (hcon ▸ hu)
        rw [List.filter_cons]
        have hbeq : ((convertOne ep).URL == u) = false := by
          rw [convertOne]
          simp only []
          exact beq_eq_false_iff_ne.mpr hne
        rw [hbeq]
        simp only [Bool.false_eq_true, if_false]
        exact (ih (ep.URL :: seen) u).1 (List.mem_cons_of_mem _ hu)
    · intro hu
      rw [dedupeConvert, List.find?]
      by_cases hin : ep.URL ∈ seen
      · rw [if_pos hin]
        have hne : (ep.URL == u) = false := by
          refine beq_eq_false_iff_ne.mpr ?_
          intro hcon
          exact hu (hcon ▸ hin)
        rw [hne]
        exact (ih seen u).2 hu
      · rw [if_neg hin]
        by_cases heq : ep.URL = u
        · have hbeq : (ep.URL == u) = true := beq_iff_eq.mpr heq
          rw [hbeq]
          rw [List.filter_cons]
          have hbeq2 : ((convertOne ep).URL == u) = true := by
            rw [convertOne]
            simp only []
            exact hbeq
          rw [hbeq2]
          simp only [if_true]
          have : (dedupeConvert rest (ep.URL :: seen)).filter (fun e => e.URL == u)
              = [] := (ih (ep.URL :: seen) u).1 (by rw [heq]; exact List.mem_cons_self _ _)
          rw [this]
        · have hbeq : (ep.URL == u) = false := beq_eq_false_iff_ne.mpr heq
          rw [hbeq]
          rw [List.filter_cons]
          have hbeq2 : ((convertOne ep).URL == u) = false := by
            rw [convertOne]
            simp only []
            exact hbeq
          rw [hbeq2]
          simp only [Bool.false_eq_true, if_false]
          exact (ih (ep.URL :: seen) u).2 (by
            intro hcon
            simp only [List.mem_cons] at hcon
            rcases hcon with hcon | hcon
            · exact heq hcon.symm
            · exact hu hcon)

/-- C7: a successful `DiscoverEndpoints` replaces the cache wholesale — the
new cache is independent of the previous one and every entry visible after
the poll comes from the new (deduplicated) listing, keyed by its hostname;
the deduplicated listing has pairwise-distinct canonical URLs with the first
occurrence of each URL winning; and the cache holds at most one endpoint per
hostname (it is a map keyed by hostname) and no two cached endpoints share a
canonical URL. -/
theorem claim_C7_discovery_replaces_cache_and_dedupes :
    ∀ l : List APIEndpoint,
      (∀ prev1 prev2 : EndpointCache,
        DiscoverEndpointsCache prev1 (some l) = DiscoverEndpointsCache prev2 (some l)) ∧
      (∀ (prev : EndpointCache) (h : List Char) (e : Endpoint),
        mapLookup (DiscoverEndpointsCache prev (some l)) h = some e →
        e ∈ discoverEndpoints l ∧ e.Hostname = h) ∧
      ((discoverEndpoints l).map Endpoint.URL).Nodup ∧
      (∀ u : List Char, (discoverEndpoints l).filter (fun e => e.URL == u)
        = match l.find? (fun x => x.URL == u) with
          | some a => [convertOne a]
          | none => []) ∧
      (∀ (prev : EndpointCache) (h1 h2 : List Char) (e1 e2 : Endpoint),
        mapLookup (DiscoverEndpointsCache prev (some l)) h1 = some e1 →
        mapLookup (DiscoverEndpointsCache prev (some l)) h2 = some e2 →
        e1.URL = e2.URL → h1 = h2 ∧ e1 = e2) := by
  intro l
  have hlook : ∀ (prev : EndpointCache) (h : List Char) (e : Endpoint),
      mapLookup (DiscoverEndpointsCache prev (some l)) h = some e →
      e ∈ discoverEndpoints l ∧ e.Hostname = h := by
    intro prev h e hl
    unfold DiscoverEndpointsCache at hl
    have hmem := mapLookup_mem _ _ _ hl
    have := buildCache_mem _ _ _ hmem
    exact ⟨this.1, this.2.symm⟩
  refine ⟨fun prev1 prev2 => rfl, hlook, (dedupeConvert_urls l []).1,
    fun u => (dedupeConvert_filter l [] u).2 (by simp), ?_⟩
  intro prev h1 h2 e1 e2 hl1 hl2 hurl
  obtain ⟨hm1, hh1⟩ := hlook prev h1 e1 hl1
  obtain ⟨hm2, hh2⟩ := hlook prev h2 e2 hl2
  have heq : e1 = e2 :=
    List.inj_on_of_nodup_map (dedupeConvert_urls l []).1 hm1 hm2 hurl
  exact ⟨by rw [← hh1, ← hh2, heq], heq⟩

/-- Witness for C7: a listing with two entries sharing one canonical URL
yields exactly one endpoint for that URL, the first occurrence. -/
theorem claim_C7_discovery_replaces_cache_and_dedupes_witness :
    (discoverEndpoints [dupEntryA, dupEntryB]).filter
        (fun e => e.URL == "http://app.example".toList)
      = [convertOne dupEntryA] :=
  ((claim_C7_discovery_replaces_cache_and_dedupes [dupEntryA, dupEntryB]).2.2.2.1
    "http://app.example".toList).trans (by rfl)

/-! ## Address parsing lemmas -/

theorem lastColonIdx_none (s : List Char) (h : ∀ c ∈ s, c ≠ ':') :
    lastColonIdx s = none := by
  unfold lastColonIdx
  have hfil : (List.range s.length).filter (fun i => s.getD i ' ' = ':') = [] := by
    rw [List.filter_eq_nil]
    intro i hi
    have hi' : i < s.length := List.mem_range.mp hi
    have hmem : s.getD i ' ' ∈ s := by
      rw [List.getD_eq_getElem _ _ hi']
      apply List.getElem_mem
    simpa using h _ hmem
  rw [hfil]
  rfl

theorem takeWhile_not_slash (s : List Char) (h : ∀ c ∈ s, c ≠ '/') :
    s.takeWhile (fun c => c ≠ '/') = s := by
  induction s with
  | nil => rfl
  | cons c rest ih =>
    rw [List.takeWhile_cons]
    have hc : c ≠ '/' := h c (List.mem_cons_self _ _)
    simp [hc, ih (fun x hx => h x (List.mem_cons_of_mem _ hx))]
    exact fun x hx => h x (List.mem_cons_of_mem _ hx)

theorem splitAtSub_scheme (scheme host : List Char)
    (hs : scheme = "tcp".toList ∨ scheme = "tls".toList) :
    splitAtSub (scheme ++ "://".toList ++ host) "://".toList
      = some (scheme, host) := by
  rcases hs with hs | hs <;> subst hs <;>
    simp [splitAtSub, List.isPrefixOf, List.drop]

/-- C8: `parseAddress` maps a bare hostname to the default port 80, an
explicit `host:port` to that port, and an `http://` URL to port 80; for the
`tcp://` and `tls://` schemes an absent port is a parse error rather than a
silent default. -/
theorem claim_C8_parseAddress_scenarios :
    parseAddress "svc.example".toList = .ok ("svc.example".toList, 80) ∧
    parseAddress "svc.example:8080".toList = .ok ("svc.example".toList, 8080) ∧
    parseAddress "http://svc.example".toList = .ok ("svc.example".toList, 80) ∧
    (∀ scheme host : List Char,
      (scheme = "tcp".toList ∨ scheme = "tls".toList) →
      (∀ c ∈ host, c ≠ ':' ∧ c ≠ '/') →
      parseAddress (scheme ++ "://".toList ++ host)
        = .error (.schemeRequiresPort scheme)) := by
  refine ⟨by rfl, by rfl, by rfl, ?_⟩
  intro scheme host hs hh
  unfold parseAddress
  rw [splitAtSub_scheme scheme host hs]
  simp only []
  rw [takeWhile_not_slash host (fun c hc => (hh c hc).2)]
  unfold hostPortSplit
  rw [lastColonIdx_none host (fun c hc => (hh c hc).1)]
  simp only []
  rcases hs with hs | hs <;> subst hs <;> simp

/-- Witness for C8's scheme clause at `tcp://svc.example`. -/
theorem claim_C8_parseAddress_scenarios_witness :
    parseAddress ("tcp".toList ++ "://".toList ++ "svc.example".toList)
      = .error (.schemeRequiresPort "tcp".toList) :=
  claim_C8_parseAddress_scenarios.2.2.2 "tcp".toList "svc.example".toList
    (Or.inl rfl) (by decide)

/-- C10: `FileStore.Exists` is true exactly when both the private-key file
and the certificate file exist and never consults the operator-id file; and
`FileStore.Load` succeeds with an empty operator ID when the operator-id
file is missing but fails whenever the key or the certificate file cannot
be read. -/
theorem claim_C10_filestore_operator_id_optional :
    ∀ (fs : FileState) (key cert : List Nat),
      (FileStore.Exists fs = true ↔ fs.tlsKey.isSome = true ∧ fs.tlsCrt.isSome = true) ∧
      (∀ v : Option (List Nat),
        FileStore.Exists { fs with operatorId := v } = FileStore.Exists fs) ∧
      (fs.tlsKey = some key → fs.tlsCrt = some cert → fs.operatorId = none →
        FileStore.Load fs = .ok (key, cert, [])) ∧
      (fs.tlsKey = none → FileStore.Load fs = .error .keyRead) ∧
      (fs.tlsKey = some key → fs.tlsCrt = none →
        FileStore.Load fs = .error .certRead) := by
  intro fs key cert
  refine ⟨?_, ?_, ?_, ?_, ?_⟩
  · unfold FileStore.Exists
    rw [Bool.and_eq_true]
  · intro v
    rfl
  · intro hk hc ho
    unfold FileStore.Load
    rw [hk, hc, ho]
    rfl
  · intro hk
    unfold FileStore.Load
    rw [hk]
  · intro hk hc
    unfold FileStore.Load
    rw [hk, hc]

/-- Witness for C10 at a store with key and certificate but no operator-id
file. -/
theorem claim_C10_filestore_operator_id_optional_witness :
    FileStore.Load ⟨some [1], some [2], none⟩ = .ok ([1], [2], []) :=
  (claim_C10_filestore_operator_id_optional ⟨some [1], some [2], none⟩
    [1] [2]).2.2.1 rfl rfl rfl
